import Mathlib

/-!
Verification of the gradient-canvas core (point store, history manager,
hit-testing, gradient-stop sampling, solid-fill rendering, color math)
against its natural-language specification.

The TypeScript sources are shallowly embedded:

* JS numbers are modelled by `ℚ` (all arithmetic used by the embedded code
  is exact on rationals); `Math.round` is `jsRound` (floor of `x + 1/2`,
  JS rounds half toward +infinity).
* `Math.sqrt d ≤ k` / `Math.sqrt d ≥ k` comparisons (with `d ≥ 0` a sum of
  squares) are embedded by the exact equivalents `sqrtLeB` / `sqrtGeB`
  (`0 ≤ k ∧ d ≤ k²`, resp. `k ≤ 0 ∨ k² ≤ d`), avoiding irrational values.
* JS `x || default` on an optional number field (falsy on `undefined` and
  `0`) is `jsOr`; `x !== undefined ? x : default` is `Option.getD`.
* Fallible code returns `Option`.
-/

namespace Gradient

/-! ### Color math (GradientCanvas.tsx `hexToRgb`, ColorPicker.tsx `hexToRgb`,
GradientEditor.tsx `hexToRgb` / `rgbToHex`) -/

/-- An RGB triple as produced by the hex parsers (each channel `0..255`). -/
structure RGB where
  r : ℕ
  g : ℕ
  b : ℕ
deriving DecidableEq, Repr

/-- One character of the regex class `[a-f\d]` with the `i` flag. -/
def isHexDigit (c : Char) : Bool :=
  (('0' ≤ c && c ≤ '9') || ('a' ≤ c && c ≤ 'f') || ('A' ≤ c && c ≤ 'F'))

/-- Numeric value of a hex digit (`parseInt(_, 16)` on a single digit). -/
def hexVal (c : Char) : ℕ :=
  if '0' ≤ c && c ≤ '9' then c.toNat - '0'.toNat
  else if 'a' ≤ c && c ≤ 'f' then c.toNat - 'a'.toNat + 10
  else if 'A' ≤ c && c ≤ 'F' then c.toNat - 'A'.toNat + 10
  else 0

/-- `parseInt` of a two-hex-digit capture group. -/
def hexPairVal (c₁ c₂ : Char) : ℕ := 16 * hexVal c₁ + hexVal c₂

/-- The regex `^#?(..)(..)(..)$` strips at most one leading `#`. -/
def stripHash : List Char → List Char
  | '#' :: rest => rest
  | cs => cs

/-- The shared regex match `^#?([a-f\d]{2})([a-f\d]{2})([a-f\d]{2})$/i` of
the three `hexToRgb` copies: succeeds exactly on six hex digits. -/
def parseHex6 : List Char → Option RGB
  | [c₁, c₂, c₃, c₄, c₅, c₆] =>
    if isHexDigit c₁ && isHexDigit c₂ && isHexDigit c₃ &&
       isHexDigit c₄ && isHexDigit c₅ && isHexDigit c₆ then
      some ⟨hexPairVal c₁ c₂, hexPairVal c₃ c₄, hexPairVal c₅ c₆⟩
    else none
  | _ => none

/-- `hexToRgb` of GradientCanvas.tsx and ColorPicker.tsx: returns `null`
(here `none`) unless the input, after an optional `#`, is exactly six hex
digits. -/
def hexToRgbC (s : String) : Option RGB :=
  parseHex6 (stripHash s.data)

/-- `hexToRgb` of GradientEditor.tsx: the same regex match, but the failure
branch returns the fallback `{ r: 0, g: 0, b: 0 }` instead of `null`. -/
def hexToRgbE (s : String) : RGB :=
  (parseHex6 (stripHash s.data)).getD ⟨0, 0, 0⟩

/-- JS `x.toString(16)` padded to two digits (the body of `rgbToHex`):
`x.toString(16)` is lowercase base-16 (`Nat.toDigits 16`), prefixed with
`'0'` when it is a single digit. -/
def jsHex2 (x : ℕ) : String :=
  let h := (Nat.toDigits 16 x).asString
  if h.length = 1 then "0" ++ h else h

/-- `rgbToHex` of GradientEditor.tsx / ColorPicker.tsx. -/
def rgbToHex (r g b : ℕ) : String :=
  "#" ++ jsHex2 r ++ jsHex2 g ++ jsHex2 b

/-- `handleHexChange` of ColorPicker.tsx: the point color is replaced only
when the input matches `^#[0-9A-F]{6}$/i`; otherwise the prior color value
is retained. -/
def handleHexChange (value cur : String) : String :=
  match value.data with
  | '#' :: rest =>
    if rest.length = 6 && rest.all isHexDigit then value else cur
  | _ => cur

/-- JS `Math.round` (half-up, toward +infinity). -/
def jsRound (q : ℚ) : ℤ := ⌊q + 1 / 2⌋

theorem toDigits16_lt16 (x : ℕ) (h : x < 16) :
    Nat.toDigits 16 x = [Nat.digitChar x] := by
  have hd : x / 16 = 0 := Nat.div_eq_of_lt h
  have hm : x % 16 = x := Nat.mod_eq_of_lt h
  simp [Nat.toDigits, Nat.toDigitsCore, hd, hm]

theorem toDigitsCore16_last (f n : ℕ) (acc : List Char) (hf : 0 < f)
    (h : n / 16 = 0) :
    Nat.toDigitsCore 16 f n acc = Nat.digitChar (n % 16) :: acc := by
  obtain ⟨g, rfl⟩ : ∃ g, f = g + 1 := ⟨f - 1, by omega⟩
  rw [Nat.toDigitsCore]
  simp [h]

theorem toDigits16_ge16 (x : ℕ) (h₁ : 16 ≤ x) (h₂ : x < 256) :
    Nat.toDigits 16 x = [Nat.digitChar (x / 16), Nat.digitChar (x % 16)] := by
  have hd : x / 16 ≠ 0 := by omega
  have hdd : (x / 16) / 16 = 0 := Nat.div_eq_of_lt (by omega)
  have hdm : (x / 16) % 16 = x / 16 := Nat.mod_eq_of_lt (by omega)
  obtain ⟨f, hf⟩ : ∃ f, x + 1 = f + 1 := ⟨x, rfl⟩
  rw [Nat.toDigits, hf, Nat.toDigitsCore]
  have hfx : f = x := by omega
  subst hfx
  rw [if_neg hd, toDigitsCore16_last _ _ _ (by omega) hdd, hdm]

theorem hexVal_digitChar : ∀ d < 16, hexVal (Nat.digitChar d) = d := by decide

theorem isHexDigit_digitChar : ∀ d < 16, isHexDigit (Nat.digitChar d) = true := by
  decide

theorem jsHex2_data (x : ℕ) (h : x < 256) :
    (jsHex2 x).data =
      if x < 16 then ['0', Nat.digitChar x]
      else [Nat.digitChar (x / 16), Nat.digitChar (x % 16)] := by
  by_cases h16 : x < 16
  · simp [jsHex2, toDigits16_lt16 x h16, h16, List.asString, String.length]
  · simp [jsHex2, toDigits16_ge16 x (by omega) h, h16, List.asString, String.length]

theorem hexToRgbC_rgbToHex (r g b : ℕ) (hr : r < 256) (hg : g < 256) (hb : b < 256) :
    hexToRgbC (rgbToHex r g b) = some ⟨r, g, b⟩ := by
  have data_eq : (rgbToHex r g b).data =
      '#' :: ((jsHex2 r).data ++ (jsHex2 g).data ++ (jsHex2 b).data) := by
    simp [rgbToHex, String.data_append]
  have pair : ∀ x : ℕ, x < 256 → ∃ c₁ c₂,
      (jsHex2 x).data = [c₁, c₂] ∧ isHexDigit c₁ = true ∧ isHexDigit c₂ = true ∧
      hexPairVal c₁ c₂ = x := by
    intro x hx
    rw [jsHex2_data x hx]
    by_cases h16 : x < 16
    · refine ⟨'0', Nat.digitChar x, by simp [h16], rfl, ?_, ?_⟩
      · exact isHexDigit_digitChar x h16
      · have h0 : hexVal '0' = 0 := by decide
        simp [hexPairVal, hexVal_digitChar x h16, h0]
    · refine ⟨Nat.digitChar (x / 16), Nat.digitChar (x % 16), by simp [h16], ?_, ?_, ?_⟩
      · exact isHexDigit_digitChar _ (by omega)
      · exact isHexDigit_digitChar _ (Nat.mod_lt _ (by omega))
      · rw [hexPairVal, hexVal_digitChar _ (by omega),
          hexVal_digitChar _ (Nat.mod_lt _ (by omega))]
        omega
  obtain ⟨r₁, r₂, hrd, hr₁, hr₂, hrv⟩ := pair r hr
  obtain ⟨g₁, g₂, hgd, hg₁, hg₂, hgv⟩ := pair g hg
  obtain ⟨b₁, b₂, hbd, hb₁, hb₂, hbv⟩ := pair b hb
  rw [hexToRgbC, data_eq, hrd, hgd, hbd]
  simp [stripHash, parseHex6, hr₁, hr₂, hg₁, hg₂, hb₁, hb₂, hrv, hgv, hbv]

/-! ### Gradient stop model (GradientEditor.tsx) -/

/-- A gradient stop of GradientEditor.tsx: `{ id, color, position, alpha? }`
with `alpha` optional. -/
structure Stop where
  id : String
  color : String
  position : ℚ
  alpha : Option ℚ
deriving DecidableEq, Repr

/-- JS `stop.alpha || 100`: `100` when the field is `undefined` or `0`
(both falsy). -/
def jsOr (a : Option ℚ) : ℚ :=
  match a with
  | none => 100
  | some v => if v = 0 then 100 else v

/-- The bracketing-pair search loop of `interpolateColor`
(GradientEditor.tsx lines 139-145): the first adjacent pair whose positions
enclose the sample position. -/
def findBracket (position : ℚ) : List Stop → Option (Stop × Stop)
  | a :: b :: rest =>
    if a.position ≤ position ∧ position ≤ b.position then some (a, b)
    else findBracket position (b :: rest)
  | _ => none

/-- One interpolated channel: `Math.round(before + (after - before) * rel)`. -/
def lerpChannel (a b rel : ℚ) : ℤ := jsRound (a + (b - a) * rel)

/-- The interpolation block of `interpolateColor` (GradientEditor.tsx lines
154-168) applied to the bracketing pair: the relative fraction between the
two positions, `Math.round`ed channel-wise color lerp re-encoded with
`rgbToHex`, and the rounded alpha lerp with the `!== undefined` default
100. -/
def interpSegment (beforeS afterS : Stop) (position : ℚ) : String × ℚ :=
  let range := afterS.position - beforeS.position
  let rel := (position - beforeS.position) / range
  let bRgb := hexToRgbE beforeS.color
  let aRgb := hexToRgbE afterS.color
  let bAlpha := beforeS.alpha.getD 100
  let aAlpha := afterS.alpha.getD 100
  (rgbToHex (lerpChannel bRgb.r aRgb.r rel).toNat
    (lerpChannel bRgb.g aRgb.g rel).toNat
    (lerpChannel bRgb.b aRgb.b rel).toNat,
   ((jsRound (bAlpha + (aAlpha - bAlpha) * rel) : ℤ) : ℚ))

/-- `interpolateColor` of GradientEditor.tsx, taking the already
position-sorted stop list (`sortedStops` in the source). On an empty list it
returns the default color `#3b82f6` at alpha `100`; on a one-stop list the
stop's values with the JS `|| 100` alpha default; otherwise it clamps to the
first/last stop or linearly interpolates inside the bracketing pair.
(The source divides by `range`; on duplicate adjacent positions JS would
produce `NaN` — the theorems below only cover strictly sorted lists, where
`range > 0`.) -/
def interpolateColor (sorted : List Stop) (position : ℚ) : String × ℚ :=
  match sorted with
  | [] => ("#3b82f6", 100)
  | [s] => (s.color, jsOr s.alpha)
  | s₀ :: s₁ :: rest =>
    let lastS := List.getLastD (s₁ :: rest) s₁
    let bracket := (findBracket position (s₀ :: s₁ :: rest)).getD (s₀, lastS)
    if position ≤ s₀.position then (s₀.color, jsOr s₀.alpha)
    else if lastS.position ≤ position then (lastS.color, jsOr lastS.alpha)
    else interpSegment bracket.1 bracket.2 position

/-- `handleRemoveStop` of GradientEditor.tsx (lines 217-222): removes the
stop unconditionally (no minimum-size guard). -/
def handleRemoveStopE (stops : List Stop) (stopId : String) : List Stop :=
  stops.filter (fun s => s.id ≠ stopId)

/-- A gradient stop of GradientStopSlider (second component in
GradientEditor.tsx): `{ id, color, position }`, no alpha. -/
structure SliderStop where
  id : String
  color : String
  position : ℚ
deriving DecidableEq, Repr

/-- `handleRemoveStop` of GradientStopSlider (lines 724-728): removal only
happens while more than two stops remain; otherwise the request is ignored
whole. -/
def handleRemoveStopS (stops : List SliderStop) (stopId : String) : List SliderStop :=
  if 2 < stops.length then stops.filter (fun s => s.id ≠ stopId) else stops

/-! ### Point model and hit-testing (GradientCanvas.tsx) -/

/-- `edgeType`. -/
inductive EdgeType where
  | soft
  | hard
deriving DecidableEq, Repr, Inhabited

/-- `shape`. -/
inductive Shape where
  | blob
  | circle
  | square
  | rectangle
deriving DecidableEq, Repr, Inhabited

/-- `gradientType`. -/
inductive GradientType where
  | solid
  | linear
  | radial
deriving DecidableEq, Repr, Inhabited

/-- The `GradientPoint` record of GradientCanvas.tsx (optional fields are
`Option`). -/
structure Point where
  id : String
  name : Option String
  x : ℚ
  y : ℚ
  color : String
  opacity : ℚ
  radius : ℚ
  edgeType : Option EdgeType
  shape : Shape
  focusX : ℚ
  focusY : ℚ
  gradientType : GradientType
  gradientColors : List String
  gradientStops : Option (List Stop)
  image : Option String
  imageScale : Option ℚ
  borderThickness : Option ℚ
  borderBlur : Option ℚ
  width : Option ℚ
  height : Option ℚ
deriving DecidableEq, Repr, Inhabited

/-- Squared Euclidean distance; the sources compare `Math.sqrt` of this
against nonnegative thresholds. -/
def distSq (x₁ y₁ x₂ y₂ : ℚ) : ℚ := (x₁ - x₂) ^ 2 + (y₁ - y₂) ^ 2

/-- Exact embedding of `Math.sqrt d ≤ k` for `d ≥ 0`. -/
def sqrtLeB (d k : ℚ) : Bool := decide (0 ≤ k) && decide (d ≤ k ^ 2)

/-- Exact embedding of `Math.sqrt d ≥ k` for `d ≥ 0`. -/
def sqrtGeB (d k : ℚ) : Bool := decide (k ≤ 0) || decide (k ^ 2 ≤ d)

/-- Focus-handle test of `getHoveredElement` (line 204): distance from
`(screenX + focusX, screenY + focusY)` at most 12. -/
def focusHit (p : Point) (panX panY cx cy : ℚ) : Bool :=
  sqrtLeB (distSq (p.x + panX + p.focusX) (p.y + panY + p.focusY) cx cy) 12

/-- Radius-handle test of `getHoveredElement` (line 210): distance from
`(screenX + radius, screenY)` at most 8. -/
def radiusHandleHit (p : Point) (panX panY cx cy : ℚ) : Bool :=
  sqrtLeB (distSq (p.x + panX + p.radius) (p.y + panY) cx cy) 8

/-- Body test of `getHoveredElement` (lines 217-260): center within 14, or
within the shape-specific 10-unit boundary band. -/
def bodyHit (p : Point) (panX panY cx cy : ℚ) : Bool :=
  let screenX := p.x + panX
  let screenY := p.y + panY
  let centerD := distSq screenX screenY cx cy
  if sqrtLeB centerD 14 then true
  else
    match p.shape with
    | .circle | .blob =>
      sqrtGeB centerD (p.radius - 10) && sqrtLeB centerD (p.radius + 10)
    | .square =>
      let halfSize := p.radius * 2 / 2
      decide ((|cx - (screenX - halfSize)| ≤ 10 ∧ |cy - screenY| ≤ halfSize) ∨
        (|cx - (screenX + halfSize)| ≤ 10 ∧ |cy - screenY| ≤ halfSize) ∨
        (|cy - (screenY - halfSize)| ≤ 10 ∧ |cx - screenX| ≤ halfSize) ∨
        (|cy - (screenY + halfSize)| ≤ 10 ∧ |cx - screenX| ≤ halfSize))
    | .rectangle =>
      let halfWidth := p.radius * 3 / 2
      let halfHeight := p.radius * 3 / 2 / 2
      decide ((|cx - (screenX - halfWidth)| ≤ 10 ∧ |cy - screenY| ≤ halfHeight) ∨
        (|cx - (screenX + halfWidth)| ≤ 10 ∧ |cy - screenY| ≤ halfHeight) ∨
        (|cy - (screenY - halfHeight)| ≤ 10 ∧ |cx - screenX| ≤ halfWidth) ∨
        (|cy - (screenY + halfHeight)| ≤ 10 ∧ |cx - screenX| ≤ halfWidth))

/-- Result variants of `getHoveredElement`. -/
inductive HoverType where
  | point
  | radius
  | focus
deriving DecidableEq, Repr

/-- A hit-test result `{ type, id }`. -/
structure Hover where
  type : HoverType
  id : String
deriving DecidableEq, Repr

/-- First loop of `getHoveredElement` (lines 194-214): for each point whose
id equals the selection, its focus handle then its radius handle. -/
def handleScan (sel : Option String) (panX panY cx cy : ℚ) :
    List Point → Option Hover
  | [] => none
  | p :: rest =>
    if sel = some p.id then
      if focusHit p panX panY cx cy then some ⟨.focus, p.id⟩
      else if radiusHandleHit p panX panY cx cy then some ⟨.radius, p.id⟩
      else handleScan sel panX panY cx cy rest
    else handleScan sel panX panY cx cy rest

/-- Second loop of `getHoveredElement` (lines 217-261): the first point in
store order whose body contains the cursor. -/
def bodyScan (panX panY cx cy : ℚ) : List Point → Option Hover
  | [] => none
  | p :: rest =>
    if bodyHit p panX panY cx cy then some ⟨.point, p.id⟩
    else bodyScan panX panY cx cy rest

/-- `getHoveredElement` of GradientCanvas.tsx (lines 192-264). -/
def getHoveredElement (pts : List Point) (sel : Option String)
    (panX panY cx cy : ℚ) : Option Hover :=
  match handleScan sel panX panY cx cy pts with
  | some h => some h
  | none => bodyScan panX panY cx cy pts

/-! ### Per-point fill construction (GradientCanvas.tsx `renderGradient`,
lines 306-379) -/

/-- The fill style `renderGradient` builds for one point before clipping it
to the shape: a flat `rgba(...)` string, or a canvas gradient carrying
`addColorStop` entries `(offset in [0,1], rgb, alpha)`. -/
inductive Fill where
  | flat (c : RGB) (a : ℚ)
  | stops (l : List (ℚ × RGB × ℚ))
deriving DecidableEq, Repr

/-- Stop alpha with edge falloff for the gradient-stop branch
(lines 358-360): soft multiplies by `1 - position`; otherwise constant up
to `0.8` and then linear down over the last fifth. -/
def gradientStopAlpha (p : Point) (position stopA : ℚ) : ℚ :=
  if p.edgeType = some .soft then p.opacity * stopA * (1 - position)
  else if position < 4 / 5 then p.opacity * stopA
  else p.opacity * stopA * (1 - (position - 4 / 5) / (1 / 5))

/-- Falloff of the evenly-spaced fallback branch (lines 370-372). -/
def fallbackAlpha (p : Point) (position : ℚ) : ℚ :=
  if p.edgeType = some .soft then p.opacity * (1 - position)
  else if position < 4 / 5 then p.opacity
  else p.opacity * (1 - (position - 4 / 5) / (1 / 5))

/-- The fallback gradient built from `gradientColors` when fewer than two
`gradientStops` exist (lines 349, 364-376). -/
def pointFillFallback (p : Point) : Fill :=
  let colors := if 2 ≤ p.gradientColors.length then p.gradientColors
    else [p.color, p.color]
  .stops (colors.enum.filterMap fun ic =>
    (hexToRgbC ic.2).map fun rgb =>
      let position : ℚ := (ic.1 : ℚ) / ((colors.length : ℚ) - 1)
      (position, rgb, fallbackAlpha p position))

/-- The fill `renderGradient` assigns for a point (lines 306-379). For
`solid` it is the flat `rgba(color, opacity)` — `none` when the hex parse
fails, in which case the source leaves the previous `fillStyle` untouched.
For non-solid, the sorted gradient stops (or the fallback) with the
edge-falloff alphas; stops with unparsable colors are skipped. -/
def pointFill (p : Point) : Option Fill :=
  match p.gradientType with
  | .solid => (hexToRgbC p.color).map fun c => .flat c p.opacity
  | _ =>
    match p.gradientStops with
    | some stops =>
      if 2 ≤ stops.length then
        let sorted := stops.mergeSort fun a b => decide (a.position ≤ b.position)
        some (.stops (sorted.filterMap fun s =>
          (hexToRgbC s.color).map fun rgb =>
            (s.position / 100, rgb,
              gradientStopAlpha p (s.position / 100)
                (match s.alpha with | some a => a / 100 | none => 1))))
      else some (pointFillFallback p)
    | none => some (pointFillFallback p)

/-- The alpha a point's fill paints at normalized distance `t` from the
center, when that fill is flat: a flat `rgba` paints the same alpha at
every location of the clipped shape, independent of `t`. -/
def renderedSolidAlpha (p : Point) (_t : ℚ) : Option ℚ :=
  match pointFill p with
  | some (.flat _ a) => some a
  | _ => none

/-- Modelled from the spec (§4.6 item 2 and `edgeType` in §3): the alpha the
claim says a `solid` point paints at normalized distance `t` from its
center (`t = distance / radius`): `opacity` times the edge falloff — soft:
continuous `1 - t`; hard: constant `1` until `0.8`, then linear to `0` over
the last fifth. -/
def specSolidAlphaAt (p : Point) (t : ℚ) : ℚ :=
  p.opacity *
    (if p.edgeType = some .soft then 1 - t
     else if t < 4 / 5 then 1 else 1 - (t - 4 / 5) / (1 / 5))

/-! ### Point store and history (GradientCanvas.tsx component state) -/

/-- The component state relevant to the claims: the live point list, the
current selection, and the history log with its cursor (`-1` when empty). -/
structure CanvasState where
  points : List Point
  selected : Option String
  history : List (List Point)
  historyIndex : ℤ
deriving DecidableEq, Repr, Inhabited

/-- The initial component state (lines 66-84). -/
def initState : CanvasState := ⟨[], none, [], -1⟩

/-- `saveToHistory` (lines 98-103): truncate after the cursor, append a
deep copy of the snapshot, move the cursor to the new last index. -/
def saveToHistory (st : CanvasState) (newPoints : List Point) : CanvasState :=
  let newHistory := st.history.take (st.historyIndex + 1).toNat ++ [newPoints]
  { st with history := newHistory, historyIndex := (newHistory.length : ℤ) - 1 }

/-- `undo` (lines 105-110). -/
def undo (st : CanvasState) : CanvasState :=
  if 0 < st.historyIndex then
    { st with
      historyIndex := st.historyIndex - 1
      points := st.history.getD (st.historyIndex - 1).toNat [] }
  else st

/-- `redo` (lines 112-117). -/
def redo (st : CanvasState) : CanvasState :=
  if st.historyIndex < (st.history.length : ℤ) - 1 then
    { st with
      historyIndex := st.historyIndex + 1
      points := st.history.getD (st.historyIndex + 1).toNat [] }
  else st

/-- A point id: `` `point-${Date.now()}` `` with `t` the clock value. -/
def pid (t : ℕ) : String := "point-" ++ Nat.repr t

/-- The point `addPoint` creates (lines 120-140), at clock value `t`. -/
def newPointAt (x y panX panY : ℚ) (n t : ℕ) : Point where
  id := pid t
  name := some ("Point " ++ Nat.repr (n + 1))
  x := x - panX
  y := y - panY
  color := "#3b82f6"
  opacity := 1
  radius := 150
  edgeType := some .soft
  shape := .blob
  focusX := 0
  focusY := 0
  gradientType := .solid
  gradientColors := ["#3b82f6", "#8b5cf6"]
  gradientStops := some [⟨"stop-1", "#3b82f6", 0, none⟩, ⟨"stop-2", "#8b5cf6", 100, none⟩]
  image := none
  imageScale := none
  borderThickness := some 8
  borderBlur := some 0
  width := none
  height := none

/-- `addPoint` (lines 119-145): append the new point, commit to history,
select it. -/
def addPoint (st : CanvasState) (x y panX panY : ℚ) (t : ℕ) : CanvasState :=
  let newPoint := newPointAt x y panX panY st.points.length t
  let newPoints := st.points ++ [newPoint]
  let st' := saveToHistory { st with points := newPoints } newPoints
  { st' with selected := some newPoint.id }

/-- `duplicatePoint` (lines 147-162), at clock value `t`; no-op when the id
is absent. -/
def duplicatePoint (st : CanvasState) (pointId : String) (t : ℕ) : CanvasState :=
  match st.points.find? (fun p => p.id = pointId) with
  | some point =>
    let newName :=
      match point.name with
      | some n => if n ≠ "" then n ++ " Copy"
        else "Point " ++ Nat.repr (st.points.length + 1) ++ " Copy"
      | none => "Point " ++ Nat.repr (st.points.length + 1) ++ " Copy"
    let newPoint := { point with
      id := pid t
      name := some newName
      x := point.x + 20
      y := point.y + 20 }
    let newPoints := st.points ++ [newPoint]
    let st' := saveToHistory { st with points := newPoints } newPoints
    { st' with selected := some newPoint.id }
  | none => st

/-- `deletePoint` (lines 164-171). -/
def deletePoint (st : CanvasState) (pointId : String) : CanvasState :=
  let newPoints := st.points.filter (fun p => p.id ≠ pointId)
  let st' := saveToHistory { st with points := newPoints } newPoints
  if st.selected = some pointId then { st' with selected := none } else st'

/-- `updatePoint` (lines 173-176): map the merge over the list, no history
commit. -/
def mapPoint (st : CanvasState) (pointId : String) (f : Point → Point) :
    CanvasState :=
  { st with points := st.points.map fun p => if p.id = pointId then f p else p }

/-- Body-drag movement (line 730). -/
def dragMovePoint (st : CanvasState) (pointId : String)
    (posX posY panX panY : ℚ) : CanvasState :=
  mapPoint st pointId fun p => { p with x := posX - panX, y := posY - panY }

/-- JS truthiness of an optional string field (`undefined` and `""` are
falsy). -/
def jsTruthyStr : Option String → Bool
  | some s => s ≠ ""
  | none => false

/-- Radius-handle drag (lines 731-748). `dist` is the value of the
`Math.sqrt` pointer-to-center distance (a nonnegative real, passed here as
its exact value when rational); the update clamps it with `Math.max(20, _)`.
For a square-shaped point carrying an image, width and height follow
`2 × radius`. -/
def dragResizeRadius (st : CanvasState) (pointId : String) (dist : ℚ) :
    CanvasState :=
  match st.points.find? (fun p => p.id = pointId) with
  | some point =>
    let clampedRadius := max 20 dist
    if jsTruthyStr point.image ∧ point.shape = .square then
      mapPoint st pointId fun p =>
        { p with
          radius := clampedRadius
          width := some (clampedRadius * 2)
          height := some (clampedRadius * 2) }
    else
      mapPoint st pointId fun p => { p with radius := clampedRadius }
  | none => st

/-- Focus-handle drag (lines 750-760). -/
def dragFocus (st : CanvasState) (pointId : String)
    (posX posY panX panY : ℚ) : CanvasState :=
  match st.points.find? (fun p => p.id = pointId) with
  | some point =>
    mapPoint st pointId fun p =>
      { p with focusX := posX - (point.x + panX), focusY := posY - (point.y + panY) }
  | none => st

/-- `handleMouseUp` after a drag (lines 763-766): commit the live list. -/
def commitGesture (st : CanvasState) : CanvasState := saveToHistory st st.points

/-- The ColorPicker `onUpdate` wrapper in GradientCanvas (lines 1066-1073):
apply the partial update, then commit the merged list. -/
def applyUpdate (st : CanvasState) (pointId : String) (f : Point → Point) :
    CanvasState :=
  let st' := mapPoint st pointId f
  saveToHistory st' st'.points

/-- The `commit` operation of the spec's History Manager as realised by the
call sites: replace the live list and `saveToHistory` it. -/
def commit (st : CanvasState) (snapshot : List Point) : CanvasState :=
  saveToHistory { st with points := snapshot } snapshot

/-! ### Reachable component states

One constructor per mutation call site in the sources. Creation-like
operations carry the `Date.now()` clock value `t` they observe. -/

/-- A store mutation, as issued by the UI call sites. -/
inductive Op where
  | add (x y panX panY : ℚ) (t : ℕ)
  | dup (pointId : String) (t : ℕ)
  | del (pointId : String)
  | move (pointId : String) (posX posY panX panY : ℚ)
  | resize (pointId : String) (dist : ℚ)
  | focusDrag (pointId : String) (posX posY panX panY : ℚ)
  | gestureEnd
  | pickColor (pointId c : String)
  | pickOpacity (pointId : String) (v : ℚ)
  | pickRadius (pointId : String) (v : ℚ)
  | pickEdge (pointId : String) (e : EdgeType)
  | pickShape (pointId : String) (sh : Shape)
  | pickGType (pointId : String) (g : GradientType)
  | pickStops (pointId : String) (stops : List Stop)
  | pickFocus (pointId : String) (fx fy : ℚ)
  | rename (pointId n : String)
  | select (pointId : String)
  | undoOp
  | redoOp

/-- Apply one operation, dispatching to the embedded handler. -/
def applyOp (st : CanvasState) : Op → CanvasState
  | .add x y panX panY t => addPoint st x y panX panY t
  | .dup pointId t => duplicatePoint st pointId t
  | .del pointId => deletePoint st pointId
  | .move pointId posX posY panX panY => dragMovePoint st pointId posX posY panX panY
  | .resize pointId dist => dragResizeRadius st pointId dist
  | .focusDrag pointId posX posY panX panY => dragFocus st pointId posX posY panX panY
  | .gestureEnd => commitGesture st
  | .pickColor pointId c => applyUpdate st pointId fun p => { p with color := c }
  | .pickOpacity pointId v => applyUpdate st pointId fun p => { p with opacity := v / 100 }
  | .pickRadius pointId v => applyUpdate st pointId fun p => { p with radius := v }
  | .pickEdge pointId e => applyUpdate st pointId fun p => { p with edgeType := some e }
  | .pickShape pointId sh => applyUpdate st pointId fun p => { p with shape := sh }
  | .pickGType pointId g => applyUpdate st pointId fun p => { p with gradientType := g }
  | .pickStops pointId stops => applyUpdate st pointId fun p =>
      { p with gradientStops := some stops, gradientColors := stops.map (·.color) }
  | .pickFocus pointId fx fy => applyUpdate st pointId fun p =>
      { p with focusX := fx, focusY := fy }
  | .rename pointId n => applyUpdate st pointId fun p => { p with name := some n }
  | .select pointId => { st with selected := some pointId }
  | .undoOp => undo st
  | .redoOp => redo st

/-- Constraints the UI widgets impose on an operation's parameters: the
opacity slider runs 0-100 and the influence-radius slider has `min={20}`
`max={400}` (ColorPicker.tsx lines 315-338). All other operations are
unconstrained. -/
def OpOk : Op → Prop
  | .pickOpacity _ v => 0 ≤ v ∧ v ≤ 100
  | .pickRadius _ v => 20 ≤ v ∧ v ≤ 400
  | _ => True

/-- A component state reachable from the initial state through UI
operations. -/
def Reach (st : CanvasState) : Prop :=
  ∃ ops : List Op, (∀ op ∈ ops, OpOk op) ∧ st = ops.foldl applyOp initState

/-- Clock discipline for a sequence of operations: successive `Date.now()`
reads never decrease, and each creation advances the clock past its
timestamp (i.e. at most one creation per millisecond). -/
def ClockOk : ℕ → List Op → Prop
  | _, [] => True
  | n, .add _ _ _ _ t :: rest => n ≤ t ∧ ClockOk (t + 1) rest
  | n, .dup _ t :: rest => n ≤ t ∧ ClockOk (t + 1) rest
  | n, _ :: rest => ClockOk n rest

/-! ### Decimal decoding of point ids -/

/-- The decimal digit characters of `n`, most significant first (the
contents of JS `String(n)` / `Nat.repr`). -/
def decChars (n : ℕ) : List Char :=
  if _h : n < 10 then [Nat.digitChar n]
  else decChars (n / 10) ++ [Nat.digitChar (n % 10)]
termination_by n
decreasing_by exact Nat.div_lt_self (by omega) (by omega)

/-- Value of a decimal digit character. -/
def decDigitVal (c : Char) : ℕ := c.toNat - '0'.toNat

/-- Decimal value of a digit-character list. -/
def decVal (cs : List Char) : ℕ := cs.foldl (fun a c => 10 * a + decDigitVal c) 0

/-- Recover the timestamp from a `point-` id. -/
def decodePid (s : String) : ℕ := decVal (s.data.drop 6)

theorem toDigitsCore10_eq (fuel : ℕ) :
    ∀ (n : ℕ) (acc : List Char), n < fuel →
      Nat.toDigitsCore 10 fuel n acc = decChars n ++ acc := by
  induction fuel with
  | zero => intro n acc h; omega
  | succ fuel ih =>
    intro n acc h
    rw [Nat.toDigitsCore]
    by_cases h10 : n < 10
    · have hd : n / 10 = 0 := Nat.div_eq_of_lt h10
      have hm : n % 10 = n := Nat.mod_eq_of_lt h10
      rw [if_pos hd, decChars, dif_pos h10, hm]
      simp
    · have hd : n / 10 ≠ 0 := by omega
      have hstep : decChars n = decChars (n / 10) ++ [Nat.digitChar (n % 10)] := by
        rw [decChars]
        rw [dif_neg h10]
      rw [if_neg hd, ih (n / 10) _ (by omega), hstep]
      simp

theorem repr_data_eq_decChars (n : ℕ) : (Nat.repr n).data = decChars n := by
  have : Nat.toDigits 10 n = decChars n ++ [] :=
    toDigitsCore10_eq (n + 1) n [] (by omega)
  simp only [Nat.repr, Nat.toDigits] at *
  simp [this, List.asString]

theorem decDigitVal_digitChar : ∀ d < 10, decDigitVal (Nat.digitChar d) = d := by
  decide

theorem decVal_decChars (n : ℕ) : decVal (decChars n) = n := by
  induction n using Nat.strong_induction_on with
  | _ n ih =>
    by_cases h10 : n < 10
    · rw [decChars, dif_pos h10]
      simp [decVal, decDigitVal_digitChar n h10]
    · rw [decChars, dif_neg h10]
      have hrec := ih (n / 10) (Nat.div_lt_self (by omega) (by omega))
      simp only [decVal, List.foldl_append, List.foldl_cons, List.foldl_nil] at *
      rw [hrec, decDigitVal_digitChar (n % 10) (Nat.mod_lt _ (by omega))]
      omega

theorem decodePid_pid (t : ℕ) : decodePid (pid t) = t := by
  have hdata : (pid t).data = "point-".data ++ (Nat.repr t).data := by
    simp [pid, String.data_append]
  rw [decodePid, hdata, repr_data_eq_decChars]
  have : ("point-".data ++ decChars t).drop 6 = decChars t := by
    have h6 : "point-".data.length = 6 := by decide
    rw [List.drop_append_of_le_length (by omega)]
    simp [h6]
  rw [this, decVal_decChars]

/-! ### History lemmas -/

theorem CanvasState.eq_of_parts (a b : CanvasState) (hp : a.points = b.points)
    (hs : a.selected = b.selected) (hh : a.history = b.history)
    (hi : a.historyIndex = b.historyIndex) : a = b := by
  cases a
  cases b
  simp_all

@[simp]
theorem saveToHistory_points (st : CanvasState) (ps : List Point) :
    (saveToHistory st ps).points = st.points := rfl

@[simp]
theorem saveToHistory_selected (st : CanvasState) (ps : List Point) :
    (saveToHistory st ps).selected = st.selected := rfl

@[simp]
theorem saveToHistory_history (st : CanvasState) (ps : List Point) :
    (saveToHistory st ps).history =
      st.history.take (st.historyIndex + 1).toNat ++ [ps] := rfl

@[simp]
theorem saveToHistory_historyIndex (st : CanvasState) (ps : List Point) :
    (saveToHistory st ps).historyIndex =
      ((st.history.take (st.historyIndex + 1).toNat).length : ℤ) := by
  simp [saveToHistory]

@[simp]
theorem commit_points (st : CanvasState) (s : List Point) :
    (commit st s).points = s := rfl

@[simp]
theorem commit_selected (st : CanvasState) (s : List Point) :
    (commit st s).selected = st.selected := rfl

@[simp]
theorem commit_history (st : CanvasState) (s : List Point) :
    (commit st s).history =
      st.history.take (st.historyIndex + 1).toNat ++ [s] := rfl

@[simp]
theorem commit_historyIndex (st : CanvasState) (s : List Point) :
    (commit st s).historyIndex =
      ((st.history.take (st.historyIndex + 1).toNat).length : ℤ) := by
  simp [commit]

/-- C1: after `commit S₁; commit S₂`, `undo` restores exactly `S₁`; a
subsequent `commit S₃` discards the redo branch, so `redo` is a no-op; and
in every state `undo` is a no-op when the cursor is ≤ 0 and `redo` is a
no-op when the cursor is ≥ `entries.length - 1`. -/
theorem history_undo_redo (st : CanvasState) (S₁ S₂ S₃ : List Point) :
    (undo (commit (commit st S₁) S₂)).points = S₁ ∧
    redo (commit (undo (commit (commit st S₁) S₂)) S₃) =
      commit (undo (commit (commit st S₁) S₂)) S₃ ∧
    (∀ s : CanvasState, s.historyIndex ≤ 0 → undo s = s) ∧
    (∀ s : CanvasState, (s.history.length : ℤ) - 1 ≤ s.historyIndex → redo s = s) := by
  have hundo : ∀ s : CanvasState, s.historyIndex ≤ 0 → undo s = s := by
    intro s hs
    rw [undo, if_neg (by omega)]
  have hredo : ∀ s : CanvasState, (s.history.length : ℤ) - 1 ≤ s.historyIndex →
      redo s = s := by
    intro s hs
    rw [redo, if_neg (by omega)]
  set K := st.history.take (st.historyIndex + 1).toNat with hK
  -- the state after the two commits
  have htake₁ : (((K.length : ℤ) + 1).toNat) = (K ++ [S₁]).length := by
    rw [List.length_append, List.length_singleton]
    omega
  have h₂hist : (commit (commit st S₁) S₂).history = (K ++ [S₁]) ++ [S₂] := by
    rw [commit_history, commit_historyIndex, commit_history, ← hK, htake₁,
      List.take_length]
  have h₂idx : (commit (commit st S₁) S₂).historyIndex = (K.length : ℤ) + 1 := by
    rw [commit_historyIndex, commit_historyIndex, commit_history, ← hK, htake₁,
      List.take_length, List.length_append, List.length_singleton]
    push_cast
    ring
  -- undo steps back onto S₁
  have hget : ((K ++ [S₁]) ++ [S₂]).getD K.length [] = S₁ := by
    rw [List.append_assoc, List.getD_append_right K _ _ _ (le_refl _)]
    simp
  have h₃ : undo (commit (commit st S₁) S₂) =
      ⟨S₁, st.selected, (K ++ [S₁]) ++ [S₂], (K.length : ℤ)⟩ := by
    rw [undo, if_pos (by rw [h₂idx]; omega)]
    refine CanvasState.eq_of_parts _ _ ?_ ?_ ?_ ?_
    · show (commit (commit st S₁) S₂).history.getD
        ((commit (commit st S₁) S₂).historyIndex - 1).toNat [] = S₁
      rw [h₂idx, h₂hist]
      have he : ((K.length : ℤ) + 1 - 1).toNat = K.length := by omega
      rw [he]
      exact hget
    · show (commit (commit st S₁) S₂).selected = st.selected
      rw [commit_selected, commit_selected]
    · exact h₂hist
    · show (commit (commit st S₁) S₂).historyIndex - 1 = (K.length : ℤ)
      rw [h₂idx]
      ring
  refine ⟨by rw [h₃], ?_, hundo, hredo⟩
  -- the commit after undo truncates the redo branch
  have h₄hist : (commit (undo (commit (commit st S₁) S₂)) S₃).history =
      (K ++ [S₁]) ++ [S₃] := by
    rw [h₃, commit_history]
    show List.take (((K.length : ℤ) + 1).toNat) ((K ++ [S₁]) ++ [S₂]) ++ [S₃] = _
    rw [htake₁, List.take_left]
  have h₄idx : (commit (undo (commit (commit st S₁) S₂)) S₃).historyIndex =
      (K.length : ℤ) + 1 := by
    rw [h₃, commit_historyIndex]
    show ((List.take (((K.length : ℤ) + 1).toNat) ((K ++ [S₁]) ++ [S₂])).length : ℤ) = _
    rw [htake₁, List.take_left, List.length_append, List.length_singleton]
    push_cast
    ring
  apply hredo
  rw [h₄hist, h₄idx]
  rw [List.length_append, List.length_append, List.length_singleton,
    List.length_singleton]
  push_cast
  omega

/-! ### Hex validation predicates and lemmas -/

/-- The strings accepted by the shared `hexToRgb` regex: after the optional
`#`, exactly six hex digits. -/
def ValidHex6 (s : String) : Prop :=
  (stripHash s.data).length = 6 ∧ ∀ c ∈ stripHash s.data, isHexDigit c = true

instance (s : String) : Decidable (ValidHex6 s) :=
  inferInstanceAs (Decidable (_ ∧ _))

/-- The strings accepted by ColorPicker's `^#[0-9A-F]{6}$/i` input guard. -/
def ValidHexInput (value : String) : Prop :=
  match value.data with
  | '#' :: rest => rest.length = 6 ∧ ∀ c ∈ rest, isHexDigit c = true
  | _ => False

instance (value : String) : Decidable (ValidHexInput value) := by
  unfold ValidHexInput
  split <;> infer_instance

theorem parseHex6_eq_none (cs : List Char)
    (h : ¬ (cs.length = 6 ∧ ∀ c ∈ cs, isHexDigit c = true)) :
    parseHex6 cs = none := by
  unfold parseHex6
  split
  · split
    · rename_i c₁ c₂ c₃ c₄ c₅ c₆ hcond
      exfalso
      apply h
      refine ⟨by simp, ?_⟩
      intro c hc
      simp only [Bool.and_eq_true] at hcond
      obtain ⟨⟨⟨⟨⟨h1, h2⟩, h3⟩, h4⟩, h5⟩, h6⟩ := hcond
      simp only [List.mem_cons, List.not_mem_nil, or_false] at hc
      rcases hc with rfl | rfl | rfl | rfl | rfl | rfl <;> assumption
    · rfl
  · rfl

theorem hexToRgbE_rgbToHex (r g b : ℕ) (hr : r < 256) (hg : g < 256)
    (hb : b < 256) : hexToRgbE (rgbToHex r g b) = ⟨r, g, b⟩ := by
  have h := hexToRgbC_rgbToHex r g b hr hg hb
  rw [hexToRgbC] at h
  rw [hexToRgbE, h]
  rfl

/-! ### Claim theorems -/

theorem history_undo_redo_witness :
    (undo (commit (commit initState [] ) [])).points = ([] : List Point) ∧
    undo initState = initState :=
  ⟨(history_undo_redo initState [] [] []).1,
   (history_undo_redo initState [] [] []).2.2.1 initState (by decide)⟩

/-- C4 (amended): `GradientStopSlider.handleRemoveStop` refuses the removal
whole whenever at most two stops remain, and removes exactly the matching
stops when more than two remain; with distinct stop ids a removal never
leaves fewer than two stops.  (`GradientEditor.handleRemoveStop`, by
contrast, removes unconditionally — see the counterexample.) -/
theorem remove_stop_guarded :
    (∀ (stops : List SliderStop) (stopId : String), stops.length ≤ 2 →
      handleRemoveStopS stops stopId = stops) ∧
    (∀ (stops : List SliderStop) (stopId : String), 2 < stops.length →
      handleRemoveStopS stops stopId = stops.filter (fun s => s.id ≠ stopId)) ∧
    (∀ (stops : List SliderStop) (stopId : String),
      (stops.map (fun s => s.id)).Nodup → 2 ≤ stops.length →
      2 ≤ (handleRemoveStopS stops stopId).length) := by
  have hfil : ∀ (stops : List SliderStop) (stopId : String),
      (stops.map (fun s => s.id)).Nodup →
      stops.length - 1 ≤ (stops.filter (fun s => s.id ≠ stopId)).length := by
    intro stops stopId h
    induction stops with
    | nil => simp
    | cons s rest ih =>
      simp only [List.map_cons, List.nodup_cons] at h
      obtain ⟨hnotin, hnodup⟩ := h
      by_cases hid : s.id = stopId
      · have hall : rest.filter (fun q => q.id ≠ stopId) = rest := by
          rw [List.filter_eq_self]
          intro q hq
          simp only [ne_eq, decide_eq_true_eq]
          intro hq'
          apply hnotin
          rw [hid, ← hq']
          exact List.mem_map_of_mem _ hq
        rw [List.filter_cons_of_neg (by simp [hid])]
        rw [hall]
        simp
      · rw [List.filter_cons_of_pos (by simp [hid])]
        have := ih hnodup
        simp only [List.length_cons]
        omega
  refine ⟨?_, ?_, ?_⟩
  · intro stops stopId h
    rw [handleRemoveStopS, if_neg (by omega)]
  · intro stops stopId h
    rw [handleRemoveStopS, if_pos h]
  · intro stops stopId hnodup hlen
    by_cases h2 : 2 < stops.length
    · rw [handleRemoveStopS, if_pos h2]
      have := hfil stops stopId hnodup
      omega
    · rw [handleRemoveStopS, if_neg h2]
      exact hlen

theorem remove_stop_guarded_witness :
    handleRemoveStopS
      [⟨"stop-1", "#3b82f6", 0⟩, ⟨"stop-2", "#8b5cf6", 100⟩] "stop-1" =
      [⟨"stop-1", "#3b82f6", 0⟩, ⟨"stop-2", "#8b5cf6", 100⟩] :=
  remove_stop_guarded.1 _ "stop-1" (by decide)

/-- C4 counterexample: `GradientEditor.handleRemoveStop` applied to a
two-stop collection removes the stop anyway, leaving a single stop — not a
no-op. -/
theorem remove_stop_unguarded_cex :
    (handleRemoveStopE
      [⟨"stop-1", "#3b82f6", 0, none⟩, ⟨"stop-2", "#8b5cf6", 100, none⟩]
      "stop-1").length = 1 := by
  decide

/-- C7 (amended): the GradientCanvas/ColorPicker `hexToRgb` parses every
valid 6-digit hex string to its exact RGB triple and returns `null` on
every other input; ColorPicker's hex field keeps the prior color on invalid
input; but GradientEditor's `hexToRgb` returns the fallback black
`(0,0,0)` instead of failing.  No input crashes (all functions are total). -/
theorem hexToRgb_validation :
    (∀ r g b : ℕ, r < 256 → g < 256 → b < 256 →
      hexToRgbC (rgbToHex r g b) = some ⟨r, g, b⟩) ∧
    (∀ s : String, ¬ ValidHex6 s → hexToRgbC s = none) ∧
    (∀ value cur : String, ¬ ValidHexInput value →
      handleHexChange value cur = cur) ∧
    (∀ s : String, ¬ ValidHex6 s → hexToRgbE s = ⟨0, 0, 0⟩) := by
  have hnone : ∀ s : String, ¬ ValidHex6 s → hexToRgbC s = none := by
    intro s h
    rw [hexToRgbC]
    exact parseHex6_eq_none _ h
  refine ⟨hexToRgbC_rgbToHex, hnone, ?_, ?_⟩
  · intro value cur h
    rw [handleHexChange]
    split
    · rename_i rest heq
      rw [if_neg]
      intro hcond
      apply h
      unfold ValidHexInput
      rw [heq]
      simp only [Bool.and_eq_true, decide_eq_true_eq, List.all_eq_true] at hcond
      exact ⟨hcond.1, hcond.2⟩
    · rfl
  · intro s h
    rw [hexToRgbE, parseHex6_eq_none _ h]
    rfl

theorem hexToRgb_validation_witness :
    hexToRgbC (rgbToHex 59 130 246) = some ⟨59, 130, 246⟩ ∧
    handleHexChange "#12" "#3b82f6" = "#3b82f6" :=
  ⟨hexToRgb_validation.1 59 130 246 (by decide) (by decide) (by decide),
   hexToRgb_validation.2.2.1 "#12" "#3b82f6" (by decide)⟩

/-- C7 counterexample: on the invalid input `"xyz"`, GradientEditor's
`hexToRgb` does not fail — it returns the RGB value black `(0,0,0)`. -/
theorem hexToRgb_editor_fallback_cex :
    hexToRgbE "xyz" = ⟨0, 0, 0⟩ ∧ ¬ ValidHex6 "xyz" ∧ hexToRgbC "xyz" = none := by
  refine ⟨by decide, by decide, by decide⟩

/-- C10 (amended): `interpolateColor` is total on degenerate stop lists: an
empty list yields the default `#3b82f6` at alpha 100 for every position; a
single stop yields its color, with alpha 100 when the stop's alpha is
absent, the stop's alpha when it is present and nonzero, and — because the
source uses the falsy JS default `alpha || 100` — alpha 100 (not 0) when
the stop's alpha is 0. -/
theorem interpolate_degenerate_total :
    (∀ position : ℚ, interpolateColor [] position = ("#3b82f6", 100)) ∧
    (∀ (s : Stop) (position : ℚ), s.alpha = none →
      interpolateColor [s] position = (s.color, 100)) ∧
    (∀ (s : Stop) (position : ℚ) (a : ℚ), s.alpha = some a → a ≠ 0 →
      interpolateColor [s] position = (s.color, a)) ∧
    (∀ (s : Stop) (position : ℚ), s.alpha = some 0 →
      interpolateColor [s] position = (s.color, 100)) := by
  refine ⟨fun _ => rfl, ?_, ?_, ?_⟩
  · intro s position h
    simp [interpolateColor, jsOr, h]
  · intro s position a h ha
    simp [interpolateColor, jsOr, h, ha]
  · intro s position h
    simp [interpolateColor, jsOr, h]

theorem interpolate_degenerate_witness :
    interpolateColor [⟨"s1", "#ff0000", 50, none⟩] 75 = ("#ff0000", 100) :=
  interpolate_degenerate_total.2.1 ⟨"s1", "#ff0000", 50, none⟩ 75 rfl

/-- C10 counterexample: on a single stop carrying alpha 0, `interpolateColor`
returns alpha 100 — it does not return the stop's stored alpha. -/
theorem interpolate_zero_alpha_single_cex :
    interpolateColor [⟨"s1", "#ff0000", 50, some 0⟩] 10 = ("#ff0000", 100) ∧
    (100 : ℚ) ≠ 0 := by
  constructor
  · simp [interpolateColor, jsOr]
  · norm_num

/-- C3 (amended): for a `solid` point whose color parses, the fill
`renderGradient` builds is the flat `rgba(color, opacity)` — the painted
alpha is `opacity` at every normalized distance `t`, with no edge falloff
(independently of `edgeType`). -/
theorem solid_fill_constant (p : Point) (c : RGB)
    (hsolid : p.gradientType = .solid) (hc : hexToRgbC p.color = some c) :
    pointFill p = some (.flat c p.opacity) ∧
    ∀ t : ℚ, renderedSolidAlpha p t = some p.opacity := by
  constructor
  · simp [pointFill, hsolid, hc]
  · intro t
    simp [renderedSolidAlpha, pointFill, hsolid, hc]

theorem solid_fill_constant_witness :
    pointFill (newPointAt 100 100 0 0 0 5) =
      some (.flat ⟨59, 130, 246⟩ 1) :=
  (solid_fill_constant (newPointAt 100 100 0 0 0 5) ⟨59, 130, 246⟩ rfl
    (by decide)).1

/-- C3 counterexample: the freshly created point (solid, soft edge, opacity
1): at normalized distance `t = 1` (the influence radius) the rendered
solid fill still has alpha 1, while the claimed soft-edge falloff demands
alpha 0 there. -/
theorem solid_fill_no_falloff_cex :
    renderedSolidAlpha (newPointAt 100 100 0 0 0 5) 1 = some 1 ∧
    specSolidAlphaAt (newPointAt 100 100 0 0 0 5) 1 = 0 ∧
    some (1 : ℚ) ≠ some (0 : ℚ) := by
  refine ⟨?_, ?_, by norm_num⟩
  · have hc : hexToRgbC "#3b82f6" = some ⟨59, 130, 246⟩ := by decide
    simp [renderedSolidAlpha, pointFill, newPointAt, hc]
  · simp [specSolidAlphaAt, newPointAt]

/-! ### Hit-test scan lemmas -/

theorem handleScan_none (sel : Option String) (panX panY cx cy : ℚ)
    (pts : List Point)
    (h : ∀ q ∈ pts, sel = some q.id →
      focusHit q panX panY cx cy = false ∧
      radiusHandleHit q panX panY cx cy = false) :
    handleScan sel panX panY cx cy pts = none := by
  induction pts with
  | nil => rfl
  | cons q rest ih =>
    rw [handleScan]
    by_cases hq : sel = some q.id
    · obtain ⟨hf, hr⟩ := h q (List.mem_cons_self _ _) hq
      rw [if_pos hq, hf, hr]
      simp only [Bool.false_eq_true, if_false]
      exact ih fun r hr' hid => h r (List.mem_cons_of_mem _ hr') hid
    · rw [if_neg hq]
      exact ih fun r hr' hid => h r (List.mem_cons_of_mem _ hr') hid

theorem handleScan_selected (pts : List Point) (p : Point)
    (panX panY cx cy : ℚ) (hmem : p ∈ pts)
    (huniq : ∀ q ∈ pts, q.id = p.id → q = p) :
    handleScan (some p.id) panX panY cx cy pts =
      (if focusHit p panX panY cx cy then some ⟨.focus, p.id⟩
       else if radiusHandleHit p panX panY cx cy then some ⟨.radius, p.id⟩
       else none) := by
  induction pts with
  | nil => cases hmem
  | cons q rest ih =>
    rw [handleScan]
    by_cases hq : (some p.id : Option String) = some q.id
    · have hqp : q = p := huniq q (List.mem_cons_self _ _)
        (by injection hq with h; exact h.symm)
      subst hqp
      rw [if_pos hq]
      by_cases hf : focusHit q panX panY cx cy
      · simp [hf]
      · have hf' : focusHit q panX panY cx cy = false := by
          simpa using hf
        by_cases hr : radiusHandleHit q panX panY cx cy
        · simp [hf', hr]
        · have hr' : radiusHandleHit q panX panY cx cy = false := by
            simpa using hr
          rw [hf', hr']
          simp only [Bool.false_eq_true, if_false]
          exact handleScan_none _ _ _ _ _ _ fun r hrmem hrid => by
            have : r = q := huniq r (List.mem_cons_of_mem _ hrmem)
              (by injection hrid with h; exact h.symm)
            subst this
            exact ⟨hf', hr'⟩
    · rw [if_neg hq]
      have hpmem : p ∈ rest := by
        rcases List.mem_cons.mp hmem with rfl | h
        · exact absurd rfl hq
        · exact h
      exact ih hpmem fun r hr hrid => huniq r (List.mem_cons_of_mem _ hr) hrid

theorem getHoveredElement_of_no_handle (pts : List Point) (sel : Option String)
    (panX panY cx cy : ℚ)
    (hnone : handleScan sel panX panY cx cy pts = none) :
    getHoveredElement pts sel panX panY cx cy = bodyScan panX panY cx cy pts := by
  rw [getHoveredElement, hnone]

theorem bodyScan_first (l₁ : List Point) (p : Point) (l₂ : List Point)
    (panX panY cx cy : ℚ)
    (hmiss : ∀ q ∈ l₁, bodyHit q panX panY cx cy = false)
    (hhit : bodyHit p panX panY cx cy = true) :
    bodyScan panX panY cx cy (l₁ ++ p :: l₂) = some ⟨.point, p.id⟩ := by
  induction l₁ with
  | nil =>
    rw [List.nil_append, bodyScan, hhit]
    simp
  | cons q rest ih =>
    rw [List.cons_append, bodyScan, hmiss q (List.mem_cons_self _ _)]
    simp only [Bool.false_eq_true, if_false]
    exact ih fun r hr => hmiss r (List.mem_cons_of_mem _ hr)

/-- C2: hit-testing tests, in order: the selected point's focus handle
(radius 12 around center + focus offset), its radius handle (radius 8
around center + (radius, 0)), every point's body, then empty canvas, with
the first match winning; in particular, whenever the radius handle matches
(and the higher-priority focus handle does not), the result is the radius
handle, never any point's body. -/
theorem hit_test_priority (pts : List Point) (p : Point)
    (panX panY cx cy : ℚ) (hmem : p ∈ pts)
    (huniq : ∀ q ∈ pts, q.id = p.id → q = p) :
    (getHoveredElement pts (some p.id) panX panY cx cy =
      if focusHit p panX panY cx cy then some ⟨.focus, p.id⟩
      else if radiusHandleHit p panX panY cx cy then some ⟨.radius, p.id⟩
      else bodyScan panX panY cx cy pts) ∧
    (focusHit p panX panY cx cy = false →
      radiusHandleHit p panX panY cx cy = true →
      getHoveredElement pts (some p.id) panX panY cx cy =
        some ⟨.radius, p.id⟩) ∧
    getHoveredElement pts none panX panY cx cy =
      bodyScan panX panY cx cy pts := by
  have hsel := handleScan_selected pts p panX panY cx cy hmem huniq
  have hnone : handleScan none panX panY cx cy pts = none :=
    handleScan_none _ _ _ _ _ _ fun q _ h => absurd h (by simp)
  refine ⟨?_, ?_, getHoveredElement_of_no_handle _ _ _ _ _ _ hnone⟩
  · rw [getHoveredElement, hsel]
    by_cases hf : focusHit p panX panY cx cy
    · simp [hf]
    · have hf' : focusHit p panX panY cx cy = false := by simpa using hf
      by_cases hr : radiusHandleHit p panX panY cx cy
      · simp [hf', hr]
      · have hr' : radiusHandleHit p panX panY cx cy = false := by
          simpa using hr
        simp [hf', hr']
  · intro hf hr
    rw [getHoveredElement, hsel, hf, hr]
    simp

/-- A point record with the given id, position and radius, other attributes
at the creation defaults. -/
def mkPoint (i : String) (x y radius : ℚ) : Point :=
  { newPointAt x y 0 0 0 0 with id := i, radius := radius }

theorem hit_test_priority_witness :
    getHoveredElement [mkPoint "b" 100 0 50, mkPoint "a" 0 0 100]
      (some "a") 0 0 100 0 = some ⟨.radius, "a"⟩ ∧
    bodyHit (mkPoint "b" 100 0 50) 0 0 100 0 = true := by
  constructor
  · exact (hit_test_priority [mkPoint "b" 100 0 50, mkPoint "a" 0 0 100]
      (mkPoint "a" 0 0 100) 0 0 100 0
      (List.mem_cons_of_mem _ (List.mem_cons_self _ _))
      (by
        intro q hq hid
        rcases List.mem_cons.mp hq with rfl | hq'
        · exact absurd hid (by decide)
        · rcases List.mem_cons.mp hq' with rfl | hq''
          · rfl
          · cases hq'')).2.1
      (by
        simp only [focusHit, mkPoint, newPointAt, sqrtLeB, distSq]
        norm_num)
      (by
        simp only [radiusHandleHit, mkPoint, newPointAt, sqrtLeB, distSq]
        norm_num)
  · simp only [bodyHit, mkPoint, newPointAt, sqrtLeB, distSq]
    norm_num

/-- C8 (amended): when no handle of the selected point matches, hit-testing
resolves to the first point in store order whose body contains the cursor —
the earliest in the list, which is the bottom-most rendered one (later
points are painted over earlier ones), not the topmost. -/
theorem body_hit_first_in_store_order (pts l₁ l₂ : List Point) (p : Point)
    (sel : Option String) (panX panY cx cy : ℚ)
    (hsplit : pts = l₁ ++ p :: l₂)
    (hnone : handleScan sel panX panY cx cy pts = none)
    (hmiss : ∀ q ∈ l₁, bodyHit q panX panY cx cy = false)
    (hhit : bodyHit p panX panY cx cy = true) :
    getHoveredElement pts sel panX panY cx cy = some ⟨.point, p.id⟩ := by
  subst hsplit
  rw [getHoveredElement_of_no_handle _ _ _ _ _ _ hnone]
  exact bodyScan_first l₁ p l₂ panX panY cx cy hmiss hhit

theorem body_hit_first_in_store_order_witness :
    getHoveredElement [mkPoint "a" 100 100 150, mkPoint "b" 100 100 150]
      none 0 0 100 100 = some ⟨.point, "a"⟩ := by
  refine body_hit_first_in_store_order _ []
    [mkPoint "b" 100 100 150] (mkPoint "a" 100 100 150) none 0 0 100 100
    rfl ?_ (by intro q hq; cases hq) ?_
  · exact handleScan_none _ _ _ _ _ _ fun q _ h => absurd h (by simp)
  · simp only [bodyHit, mkPoint, newPointAt, sqrtLeB, distSq]
    norm_num

/-- C8 counterexample: two points whose bodies both contain the cursor (the
second is rendered last, hence on top); hit-testing returns the first
(bottom-most) point `"a"`, not the topmost `"b"` the claim requires. -/
theorem body_hit_topmost_cex :
    getHoveredElement [mkPoint "a" 100 100 150, mkPoint "b" 100 100 150]
      none 0 0 100 100 = some ⟨.point, "a"⟩ ∧
    bodyHit (mkPoint "b" 100 100 150) 0 0 100 100 = true ∧
    "a" ≠ "b" := by
  refine ⟨?_, ?_, by decide⟩
  · rw [getHoveredElement_of_no_handle _ _ _ _ _ _
      (handleScan_none _ _ _ _ _ _ fun q _ h => absurd h (by simp))]
    rw [bodyScan]
    have : bodyHit (mkPoint "a" 100 100 150) 0 0 100 100 = true := by
      simp only [bodyHit, mkPoint, newPointAt, sqrtLeB, distSq]
      norm_num
    rw [this]
    simp [mkPoint]
  · simp only [bodyHit, mkPoint, newPointAt, sqrtLeB, distSq]
    norm_num

/-! ### Sampling lemmas for `interpolateColor` -/

theorem findBracket_adjacent (position : ℚ) :
    ∀ (l₁ : List Stop) (a b : Stop) (l₂ : List Stop),
      List.Pairwise (fun x y => x.position < y.position) (l₁ ++ a :: b :: l₂) →
      a.position < position → position ≤ b.position →
      findBracket position (l₁ ++ a :: b :: l₂) = some (a, b) := by
  intro l₁
  induction l₁ with
  | nil =>
    intro a b l₂ _ ha hb
    rw [List.nil_append, findBracket, if_pos ⟨le_of_lt ha, hb⟩]
  | cons u l₁ ih =>
    intro a b l₂ hp ha hb
    have hp' : List.Pairwise (fun x y => x.position < y.position)
        (l₁ ++ a :: b :: l₂) := List.Pairwise.of_cons hp
    have hu : ∀ y ∈ l₁ ++ a :: b :: l₂, u.position < y.position :=
      (List.pairwise_cons.mp hp).1
    cases l₁ with
    | nil =>
      rw [List.cons_append, List.nil_append, findBracket,
        if_neg (fun hcon => absurd (lt_of_lt_of_le ha hcon.2) (lt_irrefl _))]
      exact ih a b l₂ hp' ha hb
    | cons w l₁' =>
      have hwa : w.position < a.position := by
        have hw := (List.pairwise_cons.mp hp').1
        exact hw a (by simp)
      rw [List.cons_append, List.cons_append, findBracket,
        if_neg (fun hcon => absurd (lt_trans hwa ha |>.trans_le hcon.2)
          (lt_irrefl _))]
      rw [← List.cons_append]
      exact ih a b l₂ hp' ha hb

theorem pairwise_adjacent_lt (l₁ : List Stop) (a b : Stop) (l₂ : List Stop)
    (hp : List.Pairwise (fun x y => x.position < y.position)
      (l₁ ++ a :: b :: l₂)) : a.position < b.position := by
  have hsub : List.Sublist [a, b] (l₁ ++ a :: b :: l₂) :=
    (((List.nil_sublist l₂).cons₂ b).cons₂ a).trans
      (List.sublist_append_right l₁ _)
  have := hp.sublist hsub
  exact (List.pairwise_cons.mp this).1 b (by simp)

theorem pairwise_lt_of_mem_suffix (l₁ : List Stop) (a b : Stop)
    (l₂ : List Stop)
    (hp : List.Pairwise (fun x y => x.position < y.position)
      (l₁ ++ a :: b :: l₂)) :
    ∀ y ∈ l₂, b.position < y.position := by
  have hsub : List.Sublist (b :: l₂) (l₁ ++ a :: b :: l₂) :=
    (List.sublist_cons_self a (b :: l₂)).trans (List.sublist_append_right l₁ _)
  exact (List.pairwise_cons.mp (hp.sublist hsub)).1

theorem getLastD_cons_irrel (x : Stop) (xs : List Stop) (d d' : Stop) :
    (x :: xs).getLastD d = (x :: xs).getLastD d' := by
  rw [List.getLastD_cons, List.getLastD_cons]

/-- The last element of the whole list bounds `b` from above. -/
theorem getLastD_pos_bound (l₁ : List Stop) (a b : Stop) (l₂ : List Stop)
    (d : Stop)
    (hp : List.Pairwise (fun x y => x.position < y.position)
      (l₁ ++ a :: b :: l₂)) :
    b.position ≤ ((l₁ ++ a :: b :: l₂).getLastD d).position ∧
    (l₂ ≠ [] → b.position < ((l₁ ++ a :: b :: l₂).getLastD d).position) := by
  cases l₂ with
  | nil =>
    have heq : l₁ ++ a :: b :: [] = (l₁ ++ [a]) ++ [b] := by simp
    rw [heq]
    simp
  | cons z zs =>
    have hne : (z :: zs : List Stop) ≠ [] := by simp
    have heq : l₁ ++ a :: b :: z :: zs = (l₁ ++ [a, b]) ++ z :: zs := by simp
    have hlast : ((l₁ ++ a :: b :: z :: zs).getLastD d) =
        (z :: zs).getLast hne := by
      rw [heq, List.getLastD_eq_getLast?,
        List.getLast?_eq_getLast _ (by simp), List.getLast_append' _ _ hne]
      rfl
    have hmem : (z :: zs).getLast hne ∈ z :: zs := List.getLast_mem hne
    have := pairwise_lt_of_mem_suffix l₁ a b (z :: zs) hp _ hmem
    rw [hlast]
    exact ⟨le_of_lt this, fun _ => this⟩

theorem interpolateColor_first_clamp (s₀ s₁ : Stop) (rest : List Stop)
    (position : ℚ) (h₁ : position ≤ s₀.position) :
    interpolateColor (s₀ :: s₁ :: rest) position = (s₀.color, jsOr s₀.alpha) := by
  simp only [interpolateColor, if_pos h₁]

theorem interpolateColor_last_clamp (s₀ s₁ : Stop) (rest : List Stop)
    (position : ℚ) (h₁ : ¬ position ≤ s₀.position)
    (h₂ : ((s₁ :: rest).getLastD s₁).position ≤ position) :
    interpolateColor (s₀ :: s₁ :: rest) position =
      (((s₁ :: rest).getLastD s₁).color, jsOr ((s₁ :: rest).getLastD s₁).alpha) := by
  simp only [interpolateColor, if_neg h₁, if_pos h₂]

theorem interpolateColor_segment (s₀ s₁ : Stop) (rest : List Stop)
    (position : ℚ) (a b : Stop)
    (hfb : findBracket position (s₀ :: s₁ :: rest) = some (a, b))
    (h₁ : ¬ position ≤ s₀.position)
    (h₂ : ¬ ((s₁ :: rest).getLastD s₁).position ≤ position) :
    interpolateColor (s₀ :: s₁ :: rest) position = interpSegment a b position := by
  simp only [interpolateColor, hfb, Option.getD_some, if_neg h₁, if_neg h₂]

theorem jsRound_intCast (k : ℤ) : jsRound (k : ℚ) = k := by
  rw [jsRound]
  rw [Int.floor_eq_iff]
  constructor
  · linarith
  · linarith

theorem lerpChannel_one (x y : ℕ) : lerpChannel x y 1 = (y : ℤ) := by
  have h : (x : ℚ) + ((y : ℚ) - x) * 1 = ((y : ℤ) : ℚ) := by push_cast; ring
  rw [lerpChannel, h, jsRound_intCast]

theorem cons₂_getLastD (s₀ s₁ : Stop) (rest : List Stop) (d : Stop) :
    (s₁ :: rest).getLastD s₁ = (s₀ :: s₁ :: rest).getLastD d := by
  rw [List.getLastD_cons, List.getLastD_cons, List.getLastD_cons]

theorem interpSegment_at_after (a b : Stop) (r g bl : ℕ) (k : ℤ)
    (hab : a.position < b.position)
    (hcolor : b.color = rgbToHex r g bl)
    (hr : r < 256) (hg : g < 256) (hbl : bl < 256)
    (hk : (b.alpha.getD 100 : ℚ) = (k : ℚ)) :
    interpSegment a b b.position = (b.color, b.alpha.getD 100) := by
  have hrel : (b.position - a.position) / (b.position - a.position) = 1 :=
    div_self (ne_of_gt (sub_pos.mpr hab))
  have halpha : (a.alpha.getD 100 : ℚ) +
      ((b.alpha.getD 100 : ℚ) - a.alpha.getD 100) * 1 = (k : ℚ) := by
    rw [hk]
    ring
  simp only [interpSegment, hrel, hcolor, hexToRgbE_rgbToHex r g bl hr hg hbl,
    halpha, jsRound_intCast, lerpChannel_one, Int.toNat_natCast]
  rw [← hk]

/-- C5 (amended): on a strictly position-sorted stop list, sampling at or
before the first stop returns the first stop's color with its JS-falsy
alpha default (`alpha || 100`, so alpha 0 also reads as 100); likewise at
or after the last stop; sampling strictly between two adjacent stops
returns the rounded component-wise linear interpolation of their parsed
colors and alphas by the relative fraction; and sampling at a middle
stop's own position returns exactly that stop's color (when it is a
6-digit `rgbToHex` encoding) and its alpha under the `!== undefined`
default. -/
theorem interpolate_sample_exact (stops : List Stop)
    (hp : List.Pairwise (fun x y => x.position < y.position) stops) :
    (∀ (s₀ : Stop) (rest : List Stop) (position : ℚ), stops = s₀ :: rest →
      position ≤ s₀.position →
      interpolateColor stops position = (s₀.color, jsOr s₀.alpha)) ∧
    (∀ (h : stops ≠ []) (position : ℚ),
      (stops.getLast h).position ≤ position →
      interpolateColor stops position =
        ((stops.getLast h).color, jsOr (stops.getLast h).alpha)) ∧
    (∀ (l₁ : List Stop) (a b : Stop) (l₂ : List Stop) (position : ℚ),
      stops = l₁ ++ a :: b :: l₂ → a.position < position →
      position < b.position →
      interpolateColor stops position = interpSegment a b position) ∧
    (∀ (l₁ : List Stop) (a b : Stop) (l₂ : List Stop) (r g bl : ℕ) (k : ℤ),
      stops = l₁ ++ a :: b :: l₂ → l₂ ≠ [] →
      b.color = rgbToHex r g bl → r < 256 → g < 256 → bl < 256 →
      (b.alpha.getD 100 : ℚ) = (k : ℚ) →
      interpolateColor stops b.position = (b.color, b.alpha.getD 100)) := by
  have hinterior : ∀ (l₁ : List Stop) (a b : Stop) (l₂ : List Stop)
      (position : ℚ), stops = l₁ ++ a :: b :: l₂ → a.position < position →
      position ≤ b.position →
      (l₂ ≠ [] ∨ position < b.position) →
      interpolateColor stops position = interpSegment a b position := by
    intro l₁ a b l₂ position heq ha hb hside
    subst heq
    have hshape : ∃ s₀ s₁ rest, l₁ ++ a :: b :: l₂ = s₀ :: s₁ :: rest ∧
        s₀.position < position := by
      cases l₁ with
      | nil => exact ⟨a, b, l₂, rfl, ha⟩
      | cons u l₁' =>
        rw [List.cons_append] at hp
        have hu : u.position < a.position :=
          (List.pairwise_cons.mp hp).1 a (by simp)
        cases l₁' with
        | nil => exact ⟨u, a, b :: l₂, rfl, lt_trans hu ha⟩
        | cons w l₁'' => exact ⟨u, w, l₁'' ++ a :: b :: l₂, rfl, lt_trans hu ha⟩
    obtain ⟨s₀, s₁, rest, hsh, hs₀⟩ := hshape
    have hfb := findBracket_adjacent position l₁ a b l₂ hp ha hb
    have hlasteq : (s₁ :: rest).getLastD s₁ =
        (l₁ ++ a :: b :: l₂).getLastD a := by
      rw [hsh]
      exact (cons₂_getLastD s₀ s₁ rest a).symm ▸ rfl
    have hbound := getLastD_pos_bound l₁ a b l₂ a hp
    have h₂ : ¬ ((s₁ :: rest).getLastD s₁).position ≤ position := by
      rw [hlasteq]
      intro hcon
      rcases hside with hne | hlt
      · exact absurd ((hbound.2 hne).trans_le hcon) (not_lt.mpr hb)
      · exact absurd (hlt.trans_le (hbound.1.trans hcon)) (lt_irrefl _)
    rw [hsh] at hfb
    rw [hsh]
    exact interpolateColor_segment s₀ s₁ rest position a b hfb
      (not_le.mpr hs₀) h₂
  refine ⟨?_, ?_, ?_, ?_⟩
  · intro s₀ rest position heq hle
    subst heq
    cases rest with
    | nil => rfl
    | cons s₁ rest' => exact interpolateColor_first_clamp _ _ _ _ hle
  · intro hne position hge
    cases stops with
    | nil => exact absurd rfl hne
    | cons s₀ tail =>
      cases tail with
      | nil =>
        rw [List.getLast_singleton] at hge ⊢
        rfl
      | cons s₁ rest =>
        have hlast_eq : (s₀ :: s₁ :: rest).getLast hne =
            (s₁ :: rest).getLastD s₁ := by
          rw [List.getLast_eq_getLastD]
          exact getLastD_cons_irrel s₁ rest s₀ s₁
        have hmem : (s₁ :: rest).getLastD s₁ ∈ s₁ :: rest := by
          rw [List.getLastD_cons]
          exact List.getLastD_mem_cons _ _
        have hs₀ : s₀.position < ((s₁ :: rest).getLastD s₁).position :=
          (List.pairwise_cons.mp hp).1 _ hmem
        rw [hlast_eq] at hge ⊢
        have h₁ : ¬ position ≤ s₀.position := fun hcon =>
          absurd ((hs₀.trans_le hge).trans_le hcon) (lt_irrefl _)
        exact interpolateColor_last_clamp _ _ _ _ h₁ hge
  · intro l₁ a b l₂ position heq ha hb
    exact hinterior l₁ a b l₂ position heq ha (le_of_lt hb) (Or.inr hb)
  · intro l₁ a b l₂ r g bl k heq hne hcolor hr hg hbl hk
    have hab : a.position < b.position := by
      subst heq
      exact pairwise_adjacent_lt l₁ a b l₂ hp
    rw [hinterior l₁ a b l₂ b.position heq hab (le_refl _) (Or.inl hne)]
    exact interpSegment_at_after a b r g bl k hab hcolor hr hg hbl hk

theorem interpolate_sample_exact_witness :
    interpolateColor
      [⟨"s1", "#000000", 0, none⟩, ⟨"s2", "#808080", 50, some 40⟩,
       ⟨"s3", "#ffffff", 100, none⟩] 50 = ("#808080", 40) := by
  have h := (interpolate_sample_exact
    [⟨"s1", "#000000", 0, none⟩, ⟨"s2", "#808080", 50, some 40⟩,
     ⟨"s3", "#ffffff", 100, none⟩]
    (by
      simp only [List.pairwise_cons, List.mem_cons, List.not_mem_nil]
      norm_num)).2.2.2
    [] ⟨"s1", "#000000", 0, none⟩ ⟨"s2", "#808080", 50, some 40⟩
    [⟨"s3", "#ffffff", 100, none⟩] 128 128 128 40 rfl (by simp)
    (by decide) (by decide) (by decide) (by decide) (by norm_num)
  exact h

/-- C5 counterexample: sampling at the first stop's own position, when that
stop carries alpha 0, returns alpha 100 (the JS `alpha || 100` default) —
not the stop's alpha. -/
theorem interpolate_clamp_zero_alpha_cex :
    interpolateColor
      [⟨"s1", "#000000", 0, some 0⟩, ⟨"s2", "#ffffff", 100, some 100⟩] 0 =
      ("#000000", 100) ∧ (100 : ℚ) ≠ 0 := by
  constructor
  · simp [interpolateColor, findBracket, jsOr]
  · norm_num

/-! ### Radius invariant (C6) -/

/-- Every point in the list respects the minimum radius clamp. -/
def RadiusOk (ps : List Point) : Prop := ∀ p ∈ ps, 20 ≤ p.radius

/-- The radius invariant over the whole component state: the live list and
every history snapshot. -/
def InvR (st : CanvasState) : Prop :=
  RadiusOk st.points ∧ ∀ e ∈ st.history, RadiusOk e

theorem radiusOk_append (ps : List Point) (q : Point) (h : RadiusOk ps)
    (hq : 20 ≤ q.radius) : RadiusOk (ps ++ [q]) := by
  intro p hp
  rcases List.mem_append.mp hp with h' | h'
  · exact h p h'
  · rw [List.mem_singleton.mp h']
    exact hq

theorem radiusOk_map_cond (ps : List Point) (pointId : String)
    (f : Point → Point) (hf : ∀ p, 20 ≤ p.radius → 20 ≤ (f p).radius)
    (h : RadiusOk ps) :
    RadiusOk (ps.map fun p => if p.id = pointId then f p else p) := by
  intro p hp
  obtain ⟨q, hq, rfl⟩ := List.mem_map.mp hp
  by_cases hid : q.id = pointId
  · rw [if_pos hid]
    exact hf q (h q hq)
  · rw [if_neg hid]
    exact h q hq

theorem radiusOk_getD (hist : List (List Point)) (k : ℕ)
    (h : ∀ e ∈ hist, RadiusOk e) : RadiusOk (hist.getD k []) := by
  by_cases hk : k < hist.length
  · rw [List.getD_eq_getElem _ _ hk]
    exact h _ (List.getElem_mem hk)
  · rw [List.getD_eq_default _ _ (by omega)]
    intro p hp
    cases hp

theorem invR_save (st : CanvasState) (ps : List Point) (h : InvR st)
    (hps : RadiusOk ps) : InvR (saveToHistory st ps) := by
  refine ⟨h.1, ?_⟩
  intro e he
  rw [saveToHistory_history] at he
  rcases List.mem_append.mp he with h' | h'
  · exact h.2 e (List.take_subset _ _ h')
  · rw [List.mem_singleton.mp h']
    exact hps

theorem invR_mapPoint (st : CanvasState) (pointId : String) (f : Point → Point)
    (hf : ∀ p, 20 ≤ p.radius → 20 ≤ (f p).radius) (h : InvR st) :
    InvR (mapPoint st pointId f) :=
  ⟨radiusOk_map_cond _ _ _ hf h.1, h.2⟩

theorem invR_applyUpdate (st : CanvasState) (pointId : String)
    (f : Point → Point) (hf : ∀ p, 20 ≤ p.radius → 20 ≤ (f p).radius)
    (h : InvR st) : InvR (applyUpdate st pointId f) := by
  have h' := invR_mapPoint st pointId f hf h
  exact invR_save _ _ h' h'.1

theorem invR_selected (st : CanvasState) (sel : Option String)
    (h : InvR st) : InvR { st with selected := sel } := h

theorem invR_setPointsSave (st : CanvasState) (ps : List Point) (h : InvR st)
    (hps : RadiusOk ps) : InvR (saveToHistory { st with points := ps } ps) :=
  invR_save _ _ ⟨hps, h.2⟩ hps

theorem invR_commitAppend (st : CanvasState) (q : Point) (sel : Option String)
    (h : InvR st) (hq : 20 ≤ q.radius) :
    InvR { saveToHistory { st with points := st.points ++ [q] }
      (st.points ++ [q]) with selected := sel } :=
  invR_selected _ _ (invR_setPointsSave st _ h (radiusOk_append _ _ h.1 hq))

set_option maxHeartbeats 2000000 in
theorem invR_step (st : CanvasState) (op : Op) (h : InvR st) (hok : OpOk op) :
    InvR (applyOp st op) := by
  cases op with
  | add x y panX panY t =>
    exact invR_commitAppend st _ _ h (by norm_num [newPointAt])
  | dup pointId t =>
    show InvR (duplicatePoint st pointId t)
    rw [duplicatePoint]
    cases hfind : st.points.find? (fun p => p.id = pointId) with
    | none => exact h
    | some point =>
      have hpt : 20 ≤ point.radius :=
        h.1 point (List.mem_of_find?_eq_some hfind)
      exact invR_commitAppend st _ _ h hpt
  | del pointId =>
    show InvR (deletePoint st pointId)
    rw [deletePoint]
    have hfil : RadiusOk (st.points.filter fun p => p.id ≠ pointId) :=
      fun p hp => h.1 p (List.mem_of_mem_filter hp)
    split
    · exact invR_selected _ _ (invR_setPointsSave st _ h hfil)
    · exact invR_setPointsSave st _ h hfil
  | move pointId posX posY panX panY =>
    exact invR_mapPoint _ _ _ (fun p hp => hp) h
  | resize pointId dist =>
    show InvR (dragResizeRadius st pointId dist)
    rw [dragResizeRadius]
    cases st.points.find? (fun p => p.id = pointId) with
    | none => exact h
    | some point =>
      dsimp only
      split
      · refine invR_mapPoint _ _ _ ?_ h
        intro p _
        exact le_max_left _ _
      · refine invR_mapPoint _ _ _ ?_ h
        intro p _
        exact le_max_left _ _
  | focusDrag pointId posX posY panX panY =>
    show InvR (dragFocus st pointId posX posY panX panY)
    rw [dragFocus]
    cases st.points.find? (fun p => p.id = pointId) with
    | none => exact h
    | some point => exact invR_mapPoint _ _ _ (fun p hp => hp) h
  | gestureEnd => exact invR_save _ _ h h.1
  | pickColor pointId c => exact invR_applyUpdate _ _ _ (fun p hp => hp) h
  | pickOpacity pointId v => exact invR_applyUpdate _ _ _ (fun p hp => hp) h
  | pickRadius pointId v =>
    exact invR_applyUpdate _ _ _ (fun p _ => hok.1) h
  | pickEdge pointId e => exact invR_applyUpdate _ _ _ (fun p hp => hp) h
  | pickShape pointId sh => exact invR_applyUpdate _ _ _ (fun p hp => hp) h
  | pickGType pointId g => exact invR_applyUpdate _ _ _ (fun p hp => hp) h
  | pickStops pointId stops => exact invR_applyUpdate _ _ _ (fun p hp => hp) h
  | pickFocus pointId fx fy => exact invR_applyUpdate _ _ _ (fun p hp => hp) h
  | rename pointId n => exact invR_applyUpdate _ _ _ (fun p hp => hp) h
  | select pointId => exact h
  | undoOp =>
    show InvR (undo st)
    rw [undo]
    split
    · exact ⟨radiusOk_getD _ _ h.2, h.2⟩
    · exact h
  | redoOp =>
    show InvR (redo st)
    rw [redo]
    split
    · exact ⟨radiusOk_getD _ _ h.2, h.2⟩
    · exact h

theorem invR_foldl (ops : List Op) :
    ∀ st, InvR st → (∀ op ∈ ops, OpOk op) → InvR (ops.foldl applyOp st) := by
  induction ops with
  | nil => intro st h _; exact h
  | cons op rest ih =>
    intro st h hok
    rw [List.foldl_cons]
    exact ih _ (invR_step st op h (hok op (List.mem_cons_self _ _)))
      fun o ho => hok o (List.mem_cons_of_mem _ ho)

/-- C6: in every reachable store state, every point's radius is at least
20: creation uses 150, the resize drag clamps with `Math.max(20, _)`, the
radius slider's range starts at 20, and undo/redo only restore snapshots
of previously reachable states. -/
theorem radius_min_20 (st : CanvasState) (h : Reach st) :
    ∀ p ∈ st.points, 20 ≤ p.radius := by
  obtain ⟨ops, hok, rfl⟩ := h
  refine (invR_foldl ops initState ⟨?_, ?_⟩ hok).1
  · intro p hp
    cases hp
  · intro e he
    cases he

theorem radius_min_20_witness :
    20 ≤ (newPointAt 0 0 0 0 0 0).radius := by
  have hr : Reach (applyOp initState (.add 0 0 0 0 0)) :=
    ⟨[.add 0 0 0 0 0], by
      intro op hop
      rw [List.mem_singleton.mp hop]
      trivial, rfl⟩
  exact radius_min_20 (applyOp initState (.add 0 0 0 0 0)) hr
    (newPointAt 0 0 0 0 0 0) (List.mem_singleton_self _)

/-! ### Point-id uniqueness (C9) -/

theorem pid_inj_lt (u t : ℕ) (h : u < t) : pid u ≠ pid t := by
  intro he
  have hd := congrArg decodePid he
  rw [decodePid_pid, decodePid_pid] at hd
  omega

/-- All ids in the list are distinct and decode to timestamps below the
clock `n`. -/
def IdsOk (n : ℕ) (ps : List Point) : Prop :=
  (ps.map fun p => p.id).Nodup ∧ ∀ p ∈ ps, ∃ u, u < n ∧ p.id = pid u

/-- The id invariant over the whole component state. -/
def Inv9 (n : ℕ) (st : CanvasState) : Prop :=
  IdsOk n st.points ∧ ∀ e ∈ st.history, IdsOk n e

/-- The clock value after a sequence of operations. -/
def clockAfter : ℕ → List Op → ℕ
  | n, [] => n
  | _, .add _ _ _ _ t :: rest => clockAfter (t + 1) rest
  | _, .dup _ t :: rest => clockAfter (t + 1) rest
  | n, _ :: rest => clockAfter n rest

theorem idsOk_nil (n : ℕ) : IdsOk n [] :=
  ⟨by simp, by intro p hp; cases hp⟩

theorem idsOk_mono (n m : ℕ) (ps : List Point) (h : IdsOk n ps) (hnm : n ≤ m) :
    IdsOk m ps :=
  ⟨h.1, fun p hp =>
    let ⟨u, hu, he⟩ := h.2 p hp
    ⟨u, lt_of_lt_of_le hu hnm, he⟩⟩

theorem inv9_mono (n m : ℕ) (st : CanvasState) (h : Inv9 n st) (hnm : n ≤ m) :
    Inv9 m st :=
  ⟨idsOk_mono n m _ h.1 hnm, fun e he => idsOk_mono n m _ (h.2 e he) hnm⟩

theorem idsOk_append (n t : ℕ) (ps : List Point) (q : Point) (h : IdsOk n ps)
    (hnt : n ≤ t) (hq : q.id = pid t) : IdsOk (t + 1) (ps ++ [q]) := by
  constructor
  · rw [List.map_append]
    refine List.Nodup.append h.1 (by simp) ?_
    intro x hx hx'
    rw [List.map_singleton, List.mem_singleton] at hx'
    obtain ⟨p, hp, rfl⟩ := List.mem_map.mp hx
    obtain ⟨u, hu, hpe⟩ := h.2 p hp
    rw [hx', hq] at hpe
    exact pid_inj_lt u t (by omega) hpe.symm
  · intro p hp
    rcases List.mem_append.mp hp with h' | h'
    · obtain ⟨u, hu, he⟩ := h.2 p h'
      exact ⟨u, by omega, he⟩
    · rw [List.mem_singleton.mp h']
      exact ⟨t, by omega, hq⟩

theorem idsOk_map_cond (n : ℕ) (ps : List Point) (pointId : String)
    (f : Point → Point) (hf : ∀ p, (f p).id = p.id) (h : IdsOk n ps) :
    IdsOk n (ps.map fun p => if p.id = pointId then f p else p) := by
  have hids : ((ps.map fun p => if p.id = pointId then f p else p).map
      fun p => p.id) = ps.map fun p => p.id := by
    rw [List.map_map]
    refine List.map_congr_left ?_
    intro p _
    show (if p.id = pointId then f p else p).id = p.id
    split
    · exact hf p
    · rfl
  constructor
  · rw [hids]
    exact h.1
  · intro p hp
    obtain ⟨q, hq, rfl⟩ := List.mem_map.mp hp
    obtain ⟨u, hu, he⟩ := h.2 q hq
    refine ⟨u, hu, ?_⟩
    show (if q.id = pointId then f q else q).id = pid u
    split
    · rw [hf q]
      exact he
    · exact he

theorem idsOk_filter (n : ℕ) (ps : List Point) (pred : Point → Bool)
    (h : IdsOk n ps) : IdsOk n (ps.filter pred) :=
  ⟨h.1.sublist ((List.filter_sublist _).map _),
   fun p hp => h.2 p (List.mem_of_mem_filter hp)⟩

theorem idsOk_getD (n : ℕ) (hist : List (List Point)) (k : ℕ)
    (h : ∀ e ∈ hist, IdsOk n e) : IdsOk n (hist.getD k []) := by
  by_cases hk : k < hist.length
  · rw [List.getD_eq_getElem _ _ hk]
    exact h _ (List.getElem_mem hk)
  · rw [List.getD_eq_default _ _ (by omega)]
    exact idsOk_nil n

theorem inv9_save (n : ℕ) (st : CanvasState) (ps : List Point)
    (h : Inv9 n st) (hps : IdsOk n ps) : Inv9 n (saveToHistory st ps) := by
  refine ⟨h.1, ?_⟩
  intro e he
  rw [saveToHistory_history] at he
  rcases List.mem_append.mp he with h' | h'
  · exact h.2 e (List.take_subset _ _ h')
  · rw [List.mem_singleton.mp h']
    exact hps

theorem inv9_selected (n : ℕ) (st : CanvasState) (sel : Option String)
    (h : Inv9 n st) : Inv9 n { st with selected := sel } := h

theorem inv9_setPointsSave (n : ℕ) (st : CanvasState) (ps : List Point)
    (h : Inv9 n st) (hps : IdsOk n ps) :
    Inv9 n (saveToHistory { st with points := ps } ps) :=
  inv9_save n _ _ ⟨hps, h.2⟩ hps

theorem inv9_commitAppend (st : CanvasState) (q : Point) (sel : Option String)
    (n t : ℕ) (h : Inv9 n st) (hnt : n ≤ t) (hq : q.id = pid t) :
    Inv9 (t + 1) { saveToHistory { st with points := st.points ++ [q] }
      (st.points ++ [q]) with selected := sel } := by
  have hps : IdsOk (t + 1) (st.points ++ [q]) :=
    idsOk_append n t _ q h.1 hnt hq
  have hh : Inv9 (t + 1) st := inv9_mono n (t + 1) st h (by omega)
  exact inv9_selected _ _ _ (inv9_setPointsSave _ st _ hh hps)

theorem inv9_mapPoint (n : ℕ) (st : CanvasState) (pointId : String)
    (f : Point → Point) (hf : ∀ p, (f p).id = p.id) (h : Inv9 n st) :
    Inv9 n (mapPoint st pointId f) :=
  ⟨idsOk_map_cond n _ _ _ hf h.1, h.2⟩

theorem inv9_applyUpdate (n : ℕ) (st : CanvasState) (pointId : String)
    (f : Point → Point) (hf : ∀ p, (f p).id = p.id) (h : Inv9 n st) :
    Inv9 n (applyUpdate st pointId f) := by
  have h' := inv9_mapPoint n st pointId f hf h
  exact inv9_save n _ _ h' h'.1

set_option maxHeartbeats 2000000 in
theorem inv9_foldl (ops : List Op) :
    ∀ (n : ℕ) (st : CanvasState), ClockOk n ops → Inv9 n st →
      Inv9 (clockAfter n ops) (ops.foldl applyOp st) := by
  induction ops with
  | nil => intro n st _ h; exact h
  | cons op rest ih =>
    intro n st hc hinv
    rw [List.foldl_cons]
    cases op with
    | add x y panX panY t =>
      obtain ⟨hnt, hc'⟩ := hc
      exact ih (t + 1) _ hc' (inv9_commitAppend st _ _ n t hinv hnt rfl)
    | dup pointId t =>
      obtain ⟨hnt, hc'⟩ := hc
      refine ih (t + 1) _ hc' ?_
      show Inv9 (t + 1) (duplicatePoint st pointId t)
      rw [duplicatePoint]
      cases hfind : st.points.find? (fun p => p.id = pointId) with
      | none => exact inv9_mono n _ st hinv (by omega)
      | some point => exact inv9_commitAppend st _ _ n t hinv hnt rfl
    | del pointId =>
      refine ih n _ hc ?_
      show Inv9 n (deletePoint st pointId)
      rw [deletePoint]
      have hfil := idsOk_filter n st.points
        (fun p => decide (p.id ≠ pointId)) hinv.1
      split
      · exact inv9_selected n _ _ (inv9_setPointsSave n st _ hinv hfil)
      · exact inv9_setPointsSave n st _ hinv hfil
    | move pointId posX posY panX panY =>
      exact ih n _ hc (inv9_mapPoint n _ _ _ (fun p => rfl) hinv)
    | resize pointId dist =>
      refine ih n _ hc ?_
      show Inv9 n (dragResizeRadius st pointId dist)
      rw [dragResizeRadius]
      cases st.points.find? (fun p => p.id = pointId) with
      | none => exact hinv
      | some point =>
        dsimp only
        split
        · refine inv9_mapPoint n _ _ _ ?_ hinv
          intro p
          rfl
        · refine inv9_mapPoint n _ _ _ ?_ hinv
          intro p
          rfl
    | focusDrag pointId posX posY panX panY =>
      refine ih n _ hc ?_
      show Inv9 n (dragFocus st pointId posX posY panX panY)
      rw [dragFocus]
      cases st.points.find? (fun p => p.id = pointId) with
      | none => exact hinv
      | some point => exact inv9_mapPoint n _ _ _ (fun p => rfl) hinv
    | gestureEnd => exact ih n _ hc (inv9_save n _ _ hinv hinv.1)
    | pickColor pointId c =>
      exact ih n _ hc (inv9_applyUpdate n _ _ _ (fun p => rfl) hinv)
    | pickOpacity pointId v =>
      exact ih n _ hc (inv9_applyUpdate n _ _ _ (fun p => rfl) hinv)
    | pickRadius pointId v =>
      exact ih n _ hc (inv9_applyUpdate n _ _ _ (fun p => rfl) hinv)
    | pickEdge pointId e =>
      exact ih n _ hc (inv9_applyUpdate n _ _ _ (fun p => rfl) hinv)
    | pickShape pointId sh =>
      exact ih n _ hc (inv9_applyUpdate n _ _ _ (fun p => rfl) hinv)
    | pickGType pointId g =>
      exact ih n _ hc (inv9_applyUpdate n _ _ _ (fun p => rfl) hinv)
    | pickStops pointId stops =>
      exact ih n _ hc (inv9_applyUpdate n _ _ _ (fun p => rfl) hinv)
    | pickFocus pointId fx fy =>
      exact ih n _ hc (inv9_applyUpdate n _ _ _ (fun p => rfl) hinv)
    | rename pointId nm =>
      exact ih n _ hc (inv9_applyUpdate n _ _ _ (fun p => rfl) hinv)
    | select pointId => exact ih n _ hc hinv
    | undoOp =>
      refine ih n _ hc ?_
      show Inv9 n (undo st)
      rw [undo]
      split
      · exact ⟨idsOk_getD n _ _ hinv.2, hinv.2⟩
      · exact hinv
    | redoOp =>
      refine ih n _ hc ?_
      show Inv9 n (redo st)
      rw [redo]
      split
      · exact ⟨idsOk_getD n _ _ hinv.2, hinv.2⟩
      · exact hinv

/-- C9 (amended): under the clock discipline — each creation observes a
`Date.now()` value no smaller than the clock, and the clock then advances
past it (at most one creation per millisecond) — every reachable state has
pairwise-distinct point ids, every history snapshot likewise, and every id
in the store decodes to a timestamp strictly below the final clock, so any
later creation (whose timestamp is at least that clock) receives an id
different from every id ever assigned, deleted ones included. -/
theorem point_ids_unique (ops : List Op) (h : ClockOk 0 ops) :
    ((ops.foldl applyOp initState).points.map fun p => p.id).Nodup ∧
    (∀ e ∈ (ops.foldl applyOp initState).history,
      (e.map fun p => p.id).Nodup) ∧
    (∀ p ∈ (ops.foldl applyOp initState).points, ∀ t : ℕ,
      clockAfter 0 ops ≤ t → p.id ≠ pid t) := by
  have hinv := inv9_foldl ops 0 initState h
    ⟨idsOk_nil 0, by intro e he; cases he⟩
  refine ⟨hinv.1.1, fun e he => (hinv.2 e he).1, ?_⟩
  intro p hp t ht
  obtain ⟨u, hu, he⟩ := hinv.1.2 p hp
  rw [he]
  exact pid_inj_lt u t (by omega)

theorem point_ids_unique_witness :
    (([Op.add 0 0 0 0 0].foldl applyOp initState).points.map
      fun p => p.id).Nodup :=
  (point_ids_unique [Op.add 0 0 0 0 0] ⟨by omega, trivial⟩).1

/-- C9 counterexample: a point created at millisecond 7 and then duplicated
within the same millisecond (both `Date.now()` reads return 7) yields two
points in the store with the same id `point-7`. -/
theorem point_ids_duplicate_cex :
    Reach (applyOp (applyOp initState (.add 0 0 0 0 7)) (.dup "point-7" 7)) ∧
    ((applyOp (applyOp initState (.add 0 0 0 0 7))
        (.dup "point-7" 7)).points.map fun p => p.id) =
      ["point-7", "point-7"] ∧
    ¬ (((applyOp (applyOp initState (.add 0 0 0 0 7))
        (.dup "point-7" 7)).points.map fun p => p.id)).Nodup := by
  refine ⟨⟨[.add 0 0 0 0 7, .dup "point-7" 7], ?_, rfl⟩, ?_, ?_⟩
  · intro op hop
    rcases List.mem_cons.mp hop with rfl | hop'
    · trivial
    · rcases List.mem_cons.mp hop' with rfl | hop''
      · trivial
      · cases hop''
  · decide
  · decide

end Gradient
